import Mathlib

/-!
Verification of the resume-analyzer pipeline
(`src/resume-analyzer-api/src/routes/analyzer.py`).

The external NLP collaborators (spaCy model, NLTK tokenizer, stop-word
lexicon, WordNet lemmatizer, sklearn cosine) are abstracted into an
`NlpCtx` record of opaque-but-total functions, exactly the black-box
treatment the code gives them; the filesystem/PyPDF2 pair is abstracted
into a `String → PdfDoc` map, where a `PdfDoc` is either an unparsable
(corrupt) document or a list of pages, each page either yielding a text
(possibly empty, covering PyPDF2 returning `None`/`""`) or raising.
Floats are modelled by `ℚ`.  Python dicts with optional keys become
structures with `Option` fields; `None`/falsy checks become the
corresponding `= ""` / `= []` / `Option` tests.
-/

/-- Record of the process-wide NLP resources (`nlp`, `stop_words`, `lem`)
and the operations the code invokes on them.  `cosSim` is the value of
`cosine_similarity([nlp(a).vector], [nlp(b).vector])[0][0]`, a function of
the two texts; `hasVector`/`vectorNorm` are the corresponding attributes of
`nlp(text)`. -/
structure NlpCtx where
  tokenize : String → List String
  stopWords : String → Bool
  lemmatize : String → String
  hasVector : String → Bool
  vectorNorm : String → ℚ
  cosSim : String → String → ℚ
  nounChunks : String → List String

/-- Python `text.lower()` (ASCII model). -/
def strToLower (s : String) : String := String.mk (s.data.map Char.toLower)

/-- Membership in the regex class `\w` (ASCII model). -/
def isWordChar (c : Char) : Bool := c.isAlphanum || c = '_'

/-- Worker for `re.sub(r'\W+', ' ', s)`: each maximal run of non-word
characters becomes a single space.  The flag records whether the previous
character belonged to a non-word run. -/
def squashAux : List Char → Bool → List Char
  | [], _ => []
  | c :: cs, inRun =>
    if isWordChar c then c :: squashAux cs false
    else if inRun then squashAux cs true
    else ' ' :: squashAux cs true

/-- Python `re.sub(r'\W+', ' ', s)`. -/
def cleanText (s : String) : String := String.mk (squashAux s.data false)

/-- Python `sep.join(xs)`. -/
def joinSep (sep : String) : List String → String
  | [] => ""
  | [x] => x
  | x :: xs => x ++ sep ++ joinSep sep xs

/-- `preprocess(text)` from `analyzer.py` lines 82-89: falsy input returns
`""` at once; otherwise lowercase, squash non-word runs, tokenize, drop
stop-words and length-≤1 tokens, lemmatize the survivors, join on spaces. -/
def preprocess (ctx : NlpCtx) (text : String) : String :=
  if text = "" then ""
  else
    let cleaned := cleanText (strToLower text)
    let tokens := ctx.tokenize cleaned
    joinSep " " ((tokens.filter (fun t => !ctx.stopWords t && decide (1 < t.length))).map ctx.lemmatize)

/-- `calculate_similarity(jd_text, resume_text)` from `analyzer.py` lines
91-100: empty-text guard, vector/norm guard, then the clamped, scaled
cosine `max(0.0, min(1.0, similarity)) * 100`. -/
def calculate_similarity (ctx : NlpCtx) (jd_text resume_text : String) : ℚ :=
  if jd_text = "" ∨ resume_text = "" then 0
  else if ctx.hasVector jd_text = false ∨ ctx.hasVector resume_text = false
          ∨ ctx.vectorNorm jd_text = 0 ∨ ctx.vectorNorm resume_text = 0 then 0
  else max 0 (min 1 (ctx.cosSim jd_text resume_text)) * 100

/-- Worker for Python `s.split()` (split on whitespace runs, drop empties). -/
def splitWordsAux : List Char → List Char → List String
  | [], cur => if cur.isEmpty then [] else [String.mk cur.reverse]
  | c :: cs, cur =>
    if c.isWhitespace then
      if cur.isEmpty then splitWordsAux cs []
      else String.mk cur.reverse :: splitWordsAux cs []
    else splitWordsAux cs (c :: cur)

/-- Python `s.split()`. -/
def splitWords (s : String) : List String := splitWordsAux s.data []

/-- `extract_skills(text)` from `analyzer.py` lines 102-109.  The Python
set comprehensions are modelled as a deduplicated list (same membership,
one fixed deterministic iteration order). -/
def extract_skills (ctx : NlpCtx) (text : String) : List String :=
  if text = "" then []
  else
    let chunks := (ctx.nounChunks text).filter (fun c => decide ((splitWords c).length ≤ 3))
    let skills1 := (chunks.map strToLower).dedup
    skills1.filter (fun s => decide (2 < s.length) && !((splitWords s).all ctx.stopWords))

def MAX_SKILLS_DISPLAY : Nat := 10

/-- `analyze_skills(jd_processed, resume_processed)` from `analyzer.py`
lines 111-128.  Set intersection/difference of the two skill sets become
membership filters on the job-description skill list. -/
def analyze_skills (ctx : NlpCtx) (jd_processed resume_processed : String) :
    List String × List String × String :=
  let jd_skills := extract_skills ctx jd_processed
  let resume_skills := extract_skills ctx resume_processed
  if jd_skills = [] then ([], [], "Could not extract skills from Job Description.")
  else
    let strengths := jd_skills.filter (fun s => decide (s ∈ resume_skills))
    let missing_skills := jd_skills.filter (fun s => !decide (s ∈ resume_skills))
    let n := strengths.length
    let m := missing_skills.length
    let top3 := joinSep ", " (missing_skills.take 3)
    let feedback := s!"Candidate shows strength in {n} key areas. "
    let feedback := if missing_skills = [] then feedback ++ "Covers all key skill areas identified."
                    else feedback ++ s!"Potential gaps identified in {m} areas like: {top3}..."
    (strengths.take MAX_SKILLS_DISPLAY, missing_skills.take MAX_SKILLS_DISPLAY, feedback)

/-- Outcome of `page.extract_text()` on one page: a returned text
(`ok ""` covers both `""` and `None`, which the code treats alike via
`if page_text:`), or a raised exception. -/
inductive PageResult
  | ok (text : String)
  | fail
deriving DecidableEq

/-- A document as seen through `PyPDF2.PdfReader`: either opening/parsing
raises, or it presents a list of pages. -/
inductive PdfDoc
  | corrupt
  | pages (ps : List PageResult)
deriving DecidableEq

/-- The page loop of `extract_text_from_pdf` (lines 70-73).  It runs inside
the function's single `try`, so a raising page aborts the whole call to the
`except` handler, which returns `None`. -/
def pagesLoop : List PageResult → String → Option String
  | [], acc => some acc
  | PageResult.fail :: _, _ => none
  | PageResult.ok pt :: rest, acc =>
      pagesLoop rest (if pt = "" then acc else acc ++ pt ++ "\n")

/-- `extract_text_from_pdf` applied to an already-fetched document:
`except → None`, then `if not text: return None`. -/
def extractDoc : PdfDoc → Option String
  | PdfDoc.corrupt => none
  | PdfDoc.pages ps =>
    match pagesLoop ps "" with
    | none => none
    | some t => if t = "" then none else some t

/-- `extract_text_from_pdf(file_path)` from `analyzer.py` lines 64-80;
`fs` models opening and parsing the file at a path. -/
def extract_text_from_pdf (fs : String → PdfDoc) (file_path : String) : Option String :=
  extractDoc (fs file_path)

/-- Concatenation of page texts, each followed by `"\n"` as in line 73. -/
def joinNl : List String → String
  | [] => ""
  | x :: l => x ++ "\n" ++ joinNl l

/-- Python `round` ties-to-even on an exact rational. -/
def roundHalfEven (q : ℚ) : ℤ :=
  let f := Rat.floor q
  let r := q - (f : ℚ)
  if r < 1/2 then f
  else if 1/2 < r then f + 1
  else if f % 2 = 0 then f else f + 1

/-- Python `round(x, 1)` on an exact rational. -/
def round1 (q : ℚ) : ℚ := ((roundHalfEven (q * 10) : ℤ) : ℚ) / 10

/-- Worker for `os.path.basename`. -/
def basenameAux : List Char → List Char → List Char
  | [], acc => acc.reverse
  | c :: cs, acc => if c = '/' then basenameAux cs [] else basenameAux cs (c :: acc)

/-- `os.path.basename(p)` (POSIX). -/
def basename (p : String) : String := String.mk (basenameAux p.data [])

/-- One element of the request's `resume_files` array: a dict whose
`'path'` and `'original_name'` keys may each be missing. -/
structure ResumeFile where
  path : Option String
  original_name : Option String
deriving DecidableEq

/-- One entry of `results_list`: the error dict or the success dict
appended by the per-resume loop (lines 282-313). -/
inductive AnalysisResult
  | err (resume message : String)
  | ok (resume : String) (match_score : ℚ)
       (key_strengths missing_skills : List String) (feedback : String)
deriving DecidableEq

/-- Whether an entry has `status == 'success'`. -/
def AnalysisResult.isOk : AnalysisResult → Bool
  | AnalysisResult.ok _ _ _ _ _ => true
  | AnalysisResult.err _ _ => false

/-- One iteration of the per-resume loop (lines 272-315): `none` when the
dict has no `'path'` key (the loop `continue`s without appending), else the
entry appended to `results_list`. -/
def processResume (ctx : NlpCtx) (fs : String → PdfDoc) (jd_processed : String)
    (rf : ResumeFile) : Option AnalysisResult :=
  match rf.path with
  | none => none
  | some file_path =>
    let original_name := rf.original_name.getD (basename file_path)
    match extract_text_from_pdf fs file_path with
    | none => some (AnalysisResult.err original_name "Could not extract text from PDF")
    | some resume_text_raw =>
      if resume_text_raw = "" then
        some (AnalysisResult.err original_name "Could not extract text from PDF")
      else
        let resume_text_processed := preprocess ctx resume_text_raw
        if resume_text_processed = "" then
          some (AnalysisResult.err original_name "Could not preprocess resume text")
        else
          let match_score := calculate_similarity ctx jd_processed resume_text_processed
          let r := analyze_skills ctx jd_processed resume_text_processed
          some (AnalysisResult.ok original_name (round1 match_score) r.1 r.2.1 r.2.2)

/-- The `results_list` accumulated by the loop, in input order. -/
def resumeResults (ctx : NlpCtx) (fs : String → PdfDoc) (jd_processed : String)
    (resume_files : List ResumeFile) : List AnalysisResult :=
  resume_files.filterMap (processResume ctx fs jd_processed)

/-- `valid_resumes_count`: the number of success entries. -/
def countOk (l : List AnalysisResult) : Nat := (l.filter AnalysisResult.isOk).length

/-- The JSON response of the `/analyze` endpoint: an error payload (HTTP
400) or the success payload carrying `results_list`. -/
inductive BatchResponse
  | error (message : String)
  | success (message : String) (results : List AnalysisResult)
deriving DecidableEq

def successMessage (n : Nat) : String := s!"Successfully analyzed {n} resume(s)"

/-- `analyze_resumes()` from `analyzer.py` lines 226-326, after JSON
decoding: the falsy-input validations, the job-description preprocessing
gate, the per-resume loop, and the zero-valid-resumes gate. -/
def analyze_resumes (ctx : NlpCtx) (fs : String → PdfDoc)
    (job_description_raw : String) (resume_files : List ResumeFile) : BatchResponse :=
  if resume_files = [] then BatchResponse.error "No resume files specified for analysis"
  else if job_description_raw = "" then BatchResponse.error "No job description provided for analysis"
  else
    let jd_processed := preprocess ctx job_description_raw
    if jd_processed = "" then BatchResponse.error "Could not process the job description"
    else
      let results_list := resumeResults ctx fs jd_processed resume_files
      let valid := countOk results_list
      if valid = 0 then BatchResponse.error "No valid resumes could be processed"
      else BatchResponse.success (successMessage valid) results_list

/-- Number of per-resume entries carried by a response. -/
def numEntries : BatchResponse → Nat
  | BatchResponse.error _ => 0
  | BatchResponse.success _ l => l.length

/-- A string with no upper-case (basic latin) letter. -/
def lowerStr (s : String) : Prop := ∀ c ∈ s.data, c.isUpper = false

/-- Concrete context used to instantiate theorems with hypotheses. -/
def testCtx : NlpCtx where
  tokenize := fun s => [s]
  stopWords := fun _ => false
  lemmatize := fun t => t
  hasVector := fun _ => true
  vectorNorm := fun _ => 1
  cosSim := fun _ _ => 1/2
  nounChunks := fun s => [s]

/-- Concrete filesystem used to instantiate theorems with hypotheses. -/
def testFs : String → PdfDoc := fun p =>
  if p = "bad.pdf" then PdfDoc.corrupt
  else if p = "broken.pdf" then PdfDoc.pages [PageResult.ok "hello", PageResult.fail]
  else if p = "hello.pdf" then PdfDoc.pages [PageResult.ok "hello"]
  else if p = "gap.pdf" then PdfDoc.pages [PageResult.ok "hi", PageResult.ok "", PageResult.ok "yo"]
  else PdfDoc.pages [PageResult.ok "python skill"]

/-- Context agreeing with the program's real collaborators on the inputs
used against the preprocess-invariant claim: `"can"` is in NLTK's English
stop-word list, and the WordNet lemmatizer maps `"cans"` to its base form
`"can"` (it likewise maps `"ms"` to the length-1 `"m"`). -/
def wnCtx : NlpCtx where
  tokenize := fun s => [s]
  stopWords := fun t => t == "can"
  lemmatize := fun t => if t = "cans" then "can" else t
  hasVector := fun _ => true
  vectorNorm := fun _ => 1
  cosSim := fun _ _ => 1/2
  nounChunks := fun s => [s]

/-! ### Helper lemmas -/

theorem toLower_isUpper_eq_false (c : Char) : (Char.toLower c).isUpper = false := by
  unfold Char.toLower
  simp only []
  by_cases h : Char.toNat c ≥ 65 ∧ Char.toNat c ≤ 90
  case pos =>
    rw [if_pos h]
    obtain ⟨h1, h2⟩ := h
    have hv : (Char.toNat c + 32).isValidChar := Or.inl (by omega)
    rw [Char.ofNat, dif_pos hv]
    simp only [Char.isUpper, Char.ofNatAux]
    rw [Bool.and_eq_false_iff]
    right
    simp only [decide_eq_false_iff_not]
    intro hle
    have heq : (UInt32.mk (BitVec.ofNatLt (Char.toNat c + 32) (by omega))).toNat
        = Char.toNat c + 32 := rfl
    have hle' := UInt32.le_def.mp hle
    have hx : (UInt32.mk (BitVec.ofNatLt (Char.toNat c + 32) (by omega))).toNat ≤ 90 :=
      BitVec.le_def.mp hle'
    omega
  case neg =>
    rw [if_neg h]
    simp only [Char.isUpper]
    rw [Bool.and_eq_false_iff]
    simp only [Char.toNat] at h
    rw [Decidable.not_and_iff_or_not] at h
    rcases h with h | h
    · left
      simp only [decide_eq_false_iff_not]
      intro hle
      exact h (UInt32.le_def.mp hle)
    · right
      simp only [decide_eq_false_iff_not]
      intro hle
      exact h (BitVec.le_def.mp (UInt32.le_def.mp hle))

theorem lowerStr_strToLower (s : String) : lowerStr (strToLower s) := by
  intro c hc
  simp only [strToLower] at hc
  obtain ⟨d, _, rfl⟩ := List.mem_map.mp hc
  exact toLower_isUpper_eq_false d

theorem squashAux_chars : ∀ (l : List Char) (b : Bool) (c : Char),
    c ∈ squashAux l b → c = ' ' ∨ c ∈ l := by
  intro l
  induction l with
  | nil => intro b c hc; simp [squashAux] at hc
  | cons d l ih =>
    intro b c hc
    simp only [squashAux] at hc
    by_cases hw : isWordChar d = true
    · rw [if_pos hw] at hc
      rcases List.mem_cons.mp hc with h | h
      · right; exact h ▸ List.mem_cons_self d l
      · rcases ih false c h with h' | h'
        · left; exact h'
        · right; exact List.mem_cons_of_mem d h'
    · rw [if_neg hw] at hc
      by_cases hb : b = true
      · rw [if_pos hb] at hc
        rcases ih true c hc with h' | h'
        · left; exact h'
        · right; exact List.mem_cons_of_mem d h'
      · rw [if_neg hb] at hc
        rcases List.mem_cons.mp hc with h | h
        · left; exact h
        · rcases ih true c h with h' | h'
          · left; exact h'
          · right; exact List.mem_cons_of_mem d h'

theorem lowerStr_cleanText (s : String) (h : lowerStr s) : lowerStr (cleanText s) := by
  intro c hc
  simp only [cleanText] at hc
  rcases squashAux_chars s.data false c hc with h' | h'
  · subst h'; decide
  · exact h c h'

/-! ### C1 -/

/-- C1: for every context and every pair of texts, `calculate_similarity`
returns a rational in `[0, 100]` (in particular it is a total function and
never produces an undefined value), and whenever either text is empty, or
either text lacks a vector, or either vector norm is zero, it returns
exactly `0`. -/
theorem C1_calculate_similarity_bounds (ctx : NlpCtx) (a b : String) :
    (0 ≤ calculate_similarity ctx a b ∧ calculate_similarity ctx a b ≤ 100) ∧
    ((a = "" ∨ b = "" ∨ ctx.hasVector a = false ∨ ctx.hasVector b = false
        ∨ ctx.vectorNorm a = 0 ∨ ctx.vectorNorm b = 0) →
      calculate_similarity ctx a b = 0) := by
  constructor
  · unfold calculate_similarity
    split
    · norm_num
    · split
      · norm_num
      · constructor
        · exact mul_nonneg (le_max_left 0 _) (by norm_num)
        · have h1 : max 0 (min 1 (ctx.cosSim a b)) ≤ 1 :=
            max_le (by norm_num) (min_le_left _ _)
          calc max 0 (min 1 (ctx.cosSim a b)) * 100
              ≤ 1 * 100 := mul_le_mul_of_nonneg_right h1 (by norm_num)
            _ = 100 := by norm_num
  · intro h
    unfold calculate_similarity
    by_cases hab : a = "" ∨ b = ""
    · rw [if_pos hab]
    · rw [if_neg hab]
      have h2 : ctx.hasVector a = false ∨ ctx.hasVector b = false
          ∨ ctx.vectorNorm a = 0 ∨ ctx.vectorNorm b = 0 := by tauto
      rw [if_pos h2]

theorem C1_witness :
    (0 ≤ calculate_similarity testCtx "python" "java"
      ∧ calculate_similarity testCtx "python" "java" ≤ 100)
    ∧ calculate_similarity testCtx "" "java" = 0 :=
  ⟨(C1_calculate_similarity_bounds testCtx "python" "java").1,
   (C1_calculate_similarity_bounds testCtx "" "java").2 (Or.inl rfl)⟩

/-! ### C2 -/

/-- C2: for every context whose external cosine kernel is symmetric (which
the mathematical cosine of sklearn is), `calculate_similarity` is
symmetric in its two text arguments. -/
theorem C2_calculate_similarity_symm (ctx : NlpCtx)
    (hsym : ∀ a b, ctx.cosSim a b = ctx.cosSim b a) (A B : String) :
    calculate_similarity ctx A B = calculate_similarity ctx B A := by
  unfold calculate_similarity
  rw [hsym A B]
  split_ifs <;> first | rfl | tauto

theorem C2_witness :
    calculate_similarity testCtx "alpha" "beta"
      = calculate_similarity testCtx "beta" "alpha" :=
  C2_calculate_similarity_symm testCtx (fun _ _ => rfl) "alpha" "beta"

/-! ### C9 -/

/-- C9: whenever the job-description skill set is empty, `analyze_skills`
returns empty strength and missing lists together with the distinct
feedback message, and the result does not depend on the resume text at all
(no intersection or difference is computed). -/
theorem C9_analyze_skills_empty_jd (ctx : NlpCtx) (jd : String)
    (h : extract_skills ctx jd = []) :
    ∀ res : String, analyze_skills ctx jd res
      = ([], [], "Could not extract skills from Job Description.") := by
  intro res
  unfold analyze_skills
  rw [h]
  rfl

theorem C9_witness :
    analyze_skills testCtx "" "python developer"
      = ([], [], "Could not extract skills from Job Description.") :=
  C9_analyze_skills_empty_jd testCtx "" rfl "python developer"

/-! ### C3 -/

theorem analyze_skills_components (ctx : NlpCtx) (jd res : String)
    (h : ¬extract_skills ctx jd = []) :
    (analyze_skills ctx jd res).1
        = ((extract_skills ctx jd).filter
            (fun s => decide (s ∈ extract_skills ctx res))).take MAX_SKILLS_DISPLAY
    ∧ (analyze_skills ctx jd res).2.1
        = ((extract_skills ctx jd).filter
            (fun s => !decide (s ∈ extract_skills ctx res))).take MAX_SKILLS_DISPLAY := by
  refine ⟨?_, ?_⟩ <;> simp only [analyze_skills, if_neg h]

/-- C3: for every context and pair of processed texts, every reported
strength lies in both skill sets (the intersection), every reported missing
skill lies in the job-description set but not the resume set (the
difference), the two lists are disjoint, and each has at most 10 entries. -/
theorem C3_analyze_skills_disjoint_subset_capped (ctx : NlpCtx) (jd res : String) :
    (∀ x ∈ (analyze_skills ctx jd res).1,
        x ∈ extract_skills ctx jd ∧ x ∈ extract_skills ctx res) ∧
    (∀ x ∈ (analyze_skills ctx jd res).2.1,
        x ∈ extract_skills ctx jd ∧ x ∉ extract_skills ctx res) ∧
    (∀ x ∈ (analyze_skills ctx jd res).1, x ∉ (analyze_skills ctx jd res).2.1) ∧
    (analyze_skills ctx jd res).1.length ≤ 10 ∧
    (analyze_skills ctx jd res).2.1.length ≤ 10 := by
  by_cases h : extract_skills ctx jd = []
  · have he : analyze_skills ctx jd res
        = ([], [], "Could not extract skills from Job Description.") := by
      unfold analyze_skills
      rw [h]
      rfl
    rw [he]
    refine ⟨?_, ?_, ?_, ?_, ?_⟩ <;> simp
  · obtain ⟨e1, e2⟩ := analyze_skills_components ctx jd res h
    have hstr : ∀ x ∈ (analyze_skills ctx jd res).1,
        x ∈ extract_skills ctx jd ∧ x ∈ extract_skills ctx res := by
      intro x hx
      rw [e1] at hx
      have hx' := (List.take_sublist _ _).subset hx
      have := List.mem_filter.mp hx'
      exact ⟨this.1, of_decide_eq_true this.2⟩
    have hmis : ∀ x ∈ (analyze_skills ctx jd res).2.1,
        x ∈ extract_skills ctx jd ∧ x ∉ extract_skills ctx res := by
      intro x hx
      rw [e2] at hx
      have hx' := (List.take_sublist _ _).subset hx
      have := List.mem_filter.mp hx'
      refine ⟨this.1, ?_⟩
      have hb := this.2
      rw [Bool.not_eq_true'] at hb
      exact decide_eq_false_iff_not.mp hb
    refine ⟨hstr, hmis, ?_, ?_, ?_⟩
    · intro x hx hx'
      exact (hmis x hx').2 (hstr x hx).2
    · rw [e1]; exact List.length_take_le _ _
    · rw [e2]; exact List.length_take_le _ _

/-! ### C5 and C10: extraction lemmas -/

theorem pagesLoop_append_empty (ps1 ps2 : List PageResult) :
    ∀ acc, pagesLoop (ps1 ++ PageResult.ok "" :: ps2) acc = pagesLoop (ps1 ++ ps2) acc := by
  induction ps1 with
  | nil => intro acc; simp [pagesLoop]
  | cons pr rest ih =>
    intro acc
    cases pr with
    | ok pt => simp only [List.cons_append, pagesLoop]; exact ih _
    | fail => simp [pagesLoop]

theorem pagesLoop_fail (ps1 ps2 : List PageResult) :
    ∀ acc, pagesLoop (ps1 ++ PageResult.fail :: ps2) acc = none := by
  induction ps1 with
  | nil => intro acc; simp [pagesLoop]
  | cons pr rest ih =>
    intro acc
    cases pr with
    | ok pt => simp only [List.cons_append, pagesLoop]; exact ih _
    | fail => simp [pagesLoop]

theorem str_len_pos (s : String) (h : s ≠ "") : 0 < s.length := by
  cases s with
  | mk data =>
    cases data with
    | nil => exact absurd rfl h
    | cons c cs => simp [String.length]

theorem pagesLoop_no_fail (ps : List PageResult) :
    ∀ acc, (∀ pr ∈ ps, pr ≠ PageResult.fail) →
      ∃ s, pagesLoop ps acc = some s ∧ acc.length ≤ s.length ∧
        (s = acc ↔ ∀ pr ∈ ps, pr = PageResult.ok "") := by
  induction ps with
  | nil =>
    intro acc _
    exact ⟨acc, rfl, le_refl _, by simp⟩
  | cons pr rest ih =>
    intro acc h
    cases pr with
    | fail => exact absurd rfl (h PageResult.fail (List.mem_cons_self _ _))
    | ok pt =>
      have hrest : ∀ p ∈ rest, p ≠ PageResult.fail :=
        fun p hp => h p (List.mem_cons_of_mem _ hp)
      by_cases hpt : pt = ""
      · obtain ⟨s, hs, hle, hiff⟩ := ih acc hrest
        subst hpt
        refine ⟨s, by simpa [pagesLoop] using hs, hle, ?_⟩
        rw [hiff]
        simp
      · obtain ⟨s, hs, hle, hiff⟩ := ih (acc ++ pt ++ "\n") hrest
        have hn : ("\n" : String).length = 1 := rfl
        have h1 : (acc ++ pt ++ "\n").length = acc.length + pt.length + 1 := by
          simp [String.length_append, hn]
        refine ⟨s, by simpa [pagesLoop, hpt] using hs, ?_, ?_⟩
        · omega
        · constructor
          · intro hsacc
            exfalso
            have h2 : 0 < pt.length := str_len_pos pt hpt
            rw [hsacc] at hle
            omega
          · intro hall
            exfalso
            have := hall (PageResult.ok pt) (List.mem_cons_self _ _)
            exact hpt (by injection this)

theorem pagesLoop_structure (ps : List PageResult) :
    ∀ acc s, pagesLoop ps acc = some s →
      ∃ l, (∀ x ∈ l, x ≠ "") ∧ s = acc ++ joinNl l := by
  induction ps with
  | nil =>
    intro acc s hs
    refine ⟨[], by simp, ?_⟩
    have : acc = s := by injection hs
    rw [← this, joinNl, String.append_empty]
  | cons pr rest ih =>
    intro acc s hs
    cases pr with
    | fail => exact absurd hs (by simp [pagesLoop])
    | ok pt =>
      by_cases hpt : pt = ""
      · subst hpt
        obtain ⟨l, hl, hsl⟩ := ih acc s (by simpa [pagesLoop] using hs)
        exact ⟨l, hl, hsl⟩
      · obtain ⟨l, hl, hsl⟩ := ih (acc ++ pt ++ "\n") s (by simpa [pagesLoop, hpt] using hs)
        refine ⟨pt :: l, ?_, ?_⟩
        · intro x hx
          rcases List.mem_cons.mp hx with h | h
          · exact h ▸ hpt
          · exact hl x h
        · rw [hsl, joinNl]
          simp [String.append_assoc]

theorem joinNl_ends (l : List String) (h : l ≠ []) : ∃ t, joinNl l = t ++ "\n" := by
  induction l with
  | nil => exact absurd rfl h
  | cons x l ih =>
    cases l with
    | nil => exact ⟨x, by rw [joinNl, joinNl, String.append_empty]⟩
    | cons y l' =>
      obtain ⟨t, ht⟩ := ih (by simp)
      refine ⟨x ++ "\n" ++ t, ?_⟩
      rw [joinNl, ht]
      simp [String.append_assoc]

theorem extractDoc_pages (ps : List PageResult) :
    extractDoc (PdfDoc.pages ps)
      = match pagesLoop ps "" with
        | none => none
        | some t => if t = "" then none else some t := rfl

/-! ### C5 -/

/-- C5 counterexample: the document at `"broken.pdf"` has a first page that
yields the text `"hello"` and a second page whose extraction raises; the
claim says a page failure is swallowed with an empty contribution (so the
result should be the same as for the one-good-page document at
`"hello.pdf"`, namely `some "hello\n"`), but the code returns `none` — the
single `try/except` turns one raising page into absence of the whole
document. -/
theorem C5_counterexample :
    testFs "broken.pdf" = PdfDoc.pages [PageResult.ok "hello", PageResult.fail] ∧
    extract_text_from_pdf testFs "broken.pdf" = none ∧
    extract_text_from_pdf testFs "hello.pdf" = some "hello\n" ∧
    extract_text_from_pdf testFs "broken.pdf" ≠ extract_text_from_pdf testFs "hello.pdf" := by
  refine ⟨rfl, rfl, rfl, ?_⟩
  decide

/-- C5 amended: a page that yields no text is swallowed and contributes
nothing; but a page whose extraction raises aborts the whole document to
`none` (discarding earlier pages' text); a corrupt document yields `none`;
and when no page raises, `none` is returned exactly when no page yields any
text. -/
theorem C5_amended_page_failure_behavior (fs : String → PdfDoc) (p : String)
    (ps1 ps2 ps : List PageResult) :
    (fs p = PdfDoc.pages (ps1 ++ PageResult.ok "" :: ps2) →
       extract_text_from_pdf fs p = extractDoc (PdfDoc.pages (ps1 ++ ps2))) ∧
    (fs p = PdfDoc.pages (ps1 ++ PageResult.fail :: ps2) →
       extract_text_from_pdf fs p = none) ∧
    (fs p = PdfDoc.corrupt → extract_text_from_pdf fs p = none) ∧
    (fs p = PdfDoc.pages ps → (∀ pr ∈ ps, pr ≠ PageResult.fail) →
       (extract_text_from_pdf fs p = none ↔ ∀ pr ∈ ps, pr = PageResult.ok "")) := by
  refine ⟨?_, ?_, ?_, ?_⟩
  · intro h
    unfold extract_text_from_pdf
    rw [h, extractDoc_pages, extractDoc_pages, pagesLoop_append_empty]
  · intro h
    unfold extract_text_from_pdf
    rw [h, extractDoc_pages, pagesLoop_fail]
  · intro h
    unfold extract_text_from_pdf
    rw [h]
    rfl
  · intro h hnf
    unfold extract_text_from_pdf
    rw [h]
    obtain ⟨s, hs, _, hiff⟩ := pagesLoop_no_fail ps "" hnf
    rw [extractDoc_pages, hs]
    show (if s = "" then none else some s) = none ↔ ∀ pr ∈ ps, pr = PageResult.ok ""
    by_cases hse : s = ""
    · rw [if_pos hse]
      simp only [true_iff]
      exact hiff.mp hse
    · rw [if_neg hse]
      constructor
      · intro hx; exact absurd hx (by simp)
      · intro hall; exact absurd (hiff.mpr hall) hse

theorem C5_amended_witness :
    extract_text_from_pdf testFs "gap.pdf"
      = extractDoc (PdfDoc.pages [PageResult.ok "hi", PageResult.ok "yo"]) ∧
    extract_text_from_pdf testFs "broken.pdf" = none ∧
    extract_text_from_pdf testFs "bad.pdf" = none ∧
    extract_text_from_pdf testFs "hello.pdf" ≠ none := by
  refine ⟨?_, ?_, ?_, ?_⟩
  · exact (C5_amended_page_failure_behavior testFs "gap.pdf"
      [PageResult.ok "hi"] [PageResult.ok "yo"] []).1 rfl
  · exact (C5_amended_page_failure_behavior testFs "broken.pdf"
      [PageResult.ok "hello"] [] []).2.1 rfl
  · exact (C5_amended_page_failure_behavior testFs "bad.pdf" [] [] []).2.2.1 rfl
  · intro hnone
    have hiff := (C5_amended_page_failure_behavior testFs "hello.pdf" [] []
      [PageResult.ok "hello"]).2.2.2 rfl (by decide)
    have := hiff.mp hnone (PageResult.ok "hello") (List.mem_cons_self _ _)
    have : "hello" = "" := by injection this
    exact absurd this (by decide)

/-! ### C10 -/

/-- C10: a successful extraction is never the empty string: it is the
concatenation of the non-empty texts of the contributing pages, each
followed by a newline, and in particular it ends with a newline. -/
theorem C10_extract_text_shape (fs : String → PdfDoc) (p : String) (s : String)
    (h : extract_text_from_pdf fs p = some s) :
    s ≠ "" ∧ (∃ l, l ≠ [] ∧ (∀ x ∈ l, x ≠ "") ∧ s = joinNl l) ∧ ∃ t, s = t ++ "\n" := by
  unfold extract_text_from_pdf at h
  cases hdoc : fs p with
  | corrupt => rw [hdoc] at h; exact absurd h (by simp [extractDoc])
  | pages ps =>
    rw [hdoc, extractDoc_pages] at h
    cases hq : pagesLoop ps "" with
    | none => rw [hq] at h; exact absurd h (by simp)
    | some t =>
      rw [hq] at h
      have h' : (if t = "" then none else some t) = some s := h
      by_cases hte : t = ""
      · rw [if_pos hte] at h'; exact absurd h' (by simp)
      · rw [if_neg hte] at h'
        have hst : t = s := by injection h'
        subst hst
        obtain ⟨l, hl, hsl⟩ := pagesLoop_structure ps "" t hq
        rw [String.empty_append] at hsl
        have hlne : l ≠ [] := by
          intro hnil
          rw [hnil, joinNl] at hsl
          exact hte hsl
        refine ⟨hte, ⟨l, hlne, hl, hsl⟩, ?_⟩
        obtain ⟨u, hu⟩ := joinNl_ends l hlne
        exact ⟨u, by rw [hsl, hu]⟩

theorem C10_witness :
    ("hello\n" : String) ≠ "" ∧
    (∃ l, l ≠ [] ∧ (∀ x ∈ l, x ≠ "") ∧ "hello\n" = joinNl l) ∧
    ∃ t, ("hello\n" : String) = t ++ "\n" :=
  C10_extract_text_shape testFs "hello.pdf" "hello\n" rfl

/-! ### Batch helper lemmas -/

theorem processResume_isSome (ctx : NlpCtx) (fs : String → PdfDoc) (jd : String)
    (rf : ResumeFile) (h : rf.path.isSome = true) :
    (processResume ctx fs jd rf).isSome = true := by
  cases hp : rf.path with
  | none => rw [hp] at h; exact absurd h (by simp)
  | some file_path =>
    simp only [processResume, hp]
    cases extract_text_from_pdf fs file_path with
    | none => simp
    | some raw =>
      by_cases h1 : raw = ""
      · simp [h1]
      · by_cases h2 : preprocess ctx raw = ""
        · simp [h1, h2]
        · simp [h1, h2]

theorem processResume_none (ctx : NlpCtx) (fs : String → PdfDoc) (jd : String)
    (rf : ResumeFile) (h : rf.path = none) :
    processResume ctx fs jd rf = none := by
  unfold processResume
  rw [h]

theorem filterMap_total {α β : Type} (f : α → Option β) :
    ∀ l : List α, (∀ a ∈ l, (f a).isSome = true) →
      (l.filterMap f).length = l.length ∧
      ∀ i (hi : i < l.length), (l.filterMap f).get? i = f (l.get ⟨i, hi⟩) := by
  intro l
  induction l with
  | nil =>
    intro _
    exact ⟨rfl, fun i hi => absurd hi (by simp)⟩
  | cons a l ih =>
    intro h
    have ha : (f a).isSome = true := h a (List.mem_cons_self a l)
    obtain ⟨b, hb⟩ := Option.isSome_iff_exists.mp ha
    have hl := ih (fun x hx => h x (List.mem_cons_of_mem a hx))
    rw [List.filterMap_cons, hb]
    constructor
    · simp [hl.1]
    · intro i hi
      cases i with
      | zero => simp [hb]
      | succ j =>
        have hj : j < l.length := by
          have hx := hi
          simp only [List.length_cons] at hx
          omega
        simpa using hl.2 j hj

theorem resumeResults_length (ctx : NlpCtx) (fs : String → PdfDoc) (jd : String) :
    ∀ rfs : List ResumeFile,
      (resumeResults ctx fs jd rfs).length
        = (rfs.filter (fun rf => rf.path.isSome)).length := by
  intro rfs
  induction rfs with
  | nil => rfl
  | cons rf l ih =>
    by_cases hp : rf.path.isSome = true
    · obtain ⟨b, hb⟩ := Option.isSome_iff_exists.mp (processResume_isSome ctx fs jd rf hp)
      simp only [resumeResults, List.filterMap_cons, hb, List.filter_cons, hp,
        if_pos, List.length_cons]
      exact congrArg Nat.succ ih
    · have hnone : rf.path = none := by
        cases hq : rf.path with
        | none => rfl
        | some v => rw [hq] at hp; exact absurd rfl hp
      simp only [resumeResults, List.filterMap_cons, processResume_none ctx fs jd rf hnone,
        List.filter_cons, hp]
      simp only [Bool.false_eq_true, if_false]
      exact ih

/-! ### C7 -/

/-- C7: once the request passes the non-empty input validations, a job
description whose normalization is empty makes the whole batch fail with
the single batch-level error, carrying no per-resume entries — and this
happens for every filesystem alike, i.e. before any resume is even read. -/
theorem C7_empty_jd_fails_fast (ctx : NlpCtx) (fs : String → PdfDoc) (jd : String)
    (rfs : List ResumeFile) (h1 : rfs ≠ []) (h2 : jd ≠ "")
    (h3 : preprocess ctx jd = "") :
    analyze_resumes ctx fs jd rfs
      = BatchResponse.error "Could not process the job description" ∧
    numEntries (analyze_resumes ctx fs jd rfs) = 0 := by
  have he : analyze_resumes ctx fs jd rfs
      = BatchResponse.error "Could not process the job description" := by
    unfold analyze_resumes
    rw [if_neg h1, if_neg h2]
    simp only [h3, if_pos]
  exact ⟨he, by rw [he]; rfl⟩

theorem C7_witness :
    analyze_resumes testCtx testFs "a" [⟨some "r1.pdf", none⟩]
      = BatchResponse.error "Could not process the job description" ∧
    numEntries (analyze_resumes testCtx testFs "a" [⟨some "r1.pdf", none⟩]) = 0 :=
  C7_empty_jd_fails_fast testCtx testFs "a" [⟨some "r1.pdf", none⟩]
    (by decide) (by decide) (by decide)

/-! ### C4 -/

/-- C4 counterexample: a batch with a non-empty processed job description
and one input resume whose dict lacks the `'path'` key produces a response
with zero per-resume entries, not one entry per input resume: the loop
`continue`s over pathless entries without recording anything. -/
theorem C4_counterexample :
    preprocess testCtx "skill" ≠ "" ∧
    numEntries (analyze_resumes testCtx testFs "skill" [⟨none, some "Bob"⟩])
      ≠ ([(⟨none, some "Bob"⟩ : ResumeFile)]).length := by
  refine ⟨?_, ?_⟩ <;> decide

/-- C4 amended: for every batch that passes input validation, in which
every resume dict has a `'path'` key and at least one resume processes
successfully, the success response carries exactly one entry per input
resume, in input order (the i-th entry is the outcome of the i-th resume). -/
theorem C4_amended_one_entry_per_resume (ctx : NlpCtx) (fs : String → PdfDoc)
    (jd : String) (rfs : List ResumeFile) (h1 : rfs ≠ []) (h2 : jd ≠ "")
    (h3 : preprocess ctx jd ≠ "")
    (hpaths : ∀ rf ∈ rfs, (rf : ResumeFile).path.isSome = true)
    (hok : countOk (resumeResults ctx fs (preprocess ctx jd) rfs) ≠ 0) :
    analyze_resumes ctx fs jd rfs
      = BatchResponse.success
          (successMessage (countOk (resumeResults ctx fs (preprocess ctx jd) rfs)))
          (resumeResults ctx fs (preprocess ctx jd) rfs) ∧
    (resumeResults ctx fs (preprocess ctx jd) rfs).length = rfs.length ∧
    ∀ i (hi : i < rfs.length),
      (resumeResults ctx fs (preprocess ctx jd) rfs).get? i
        = processResume ctx fs (preprocess ctx jd) (rfs.get ⟨i, hi⟩) := by
  have hsome : ∀ rf ∈ rfs, (processResume ctx fs (preprocess ctx jd) rf).isSome = true :=
    fun rf hrf => processResume_isSome ctx fs (preprocess ctx jd) rf (hpaths rf hrf)
  have htot := filterMap_total (processResume ctx fs (preprocess ctx jd)) rfs hsome
  refine ⟨?_, htot.1, htot.2⟩
  unfold analyze_resumes
  rw [if_neg h1, if_neg h2]
  simp only [if_neg h3, if_neg hok]

theorem C4_amended_witness :
    (resumeResults testCtx testFs (preprocess testCtx "skill")
        [⟨some "r1.pdf", some "Alice"⟩]).length
      = ([(⟨some "r1.pdf", some "Alice"⟩ : ResumeFile)]).length :=
  (C4_amended_one_entry_per_resume testCtx testFs "skill"
    [⟨some "r1.pdf", some "Alice"⟩]
    (by decide) (by decide) (by decide) (by decide) (by decide)).2.1

/-! ### C8 -/

/-- C8: for every batch that passes input validation, the response is the
success payload exactly when at least one per-resume entry is a success;
and when no resume succeeds the response is the batch-level error, even
though the loop produced an (error) entry for every resume that had a
path. -/
theorem C8_batch_success_iff_some_ok (ctx : NlpCtx) (fs : String → PdfDoc)
    (jd : String) (rfs : List ResumeFile) (h1 : rfs ≠ []) (h2 : jd ≠ "")
    (h3 : preprocess ctx jd ≠ "") :
    ((∃ m l, analyze_resumes ctx fs jd rfs = BatchResponse.success m l)
       ↔ ∃ r ∈ resumeResults ctx fs (preprocess ctx jd) rfs, r.isOk = true) ∧
    (countOk (resumeResults ctx fs (preprocess ctx jd) rfs) = 0 →
       analyze_resumes ctx fs jd rfs
         = BatchResponse.error "No valid resumes could be processed"
       ∧ (∀ r ∈ resumeResults ctx fs (preprocess ctx jd) rfs, r.isOk = false)
       ∧ (resumeResults ctx fs (preprocess ctx jd) rfs).length
           = (rfs.filter (fun rf => rf.path.isSome)).length) := by
  have hcnt : countOk (resumeResults ctx fs (preprocess ctx jd) rfs) = 0
      ↔ ∀ r ∈ resumeResults ctx fs (preprocess ctx jd) rfs, ¬r.isOk = true := by
    unfold countOk
    rw [List.length_eq_zero, List.filter_eq_nil_iff]
  constructor
  · constructor
    · rintro ⟨m, l, hml⟩
      by_cases hz : countOk (resumeResults ctx fs (preprocess ctx jd) rfs) = 0
      · exfalso
        have : analyze_resumes ctx fs jd rfs
            = BatchResponse.error "No valid resumes could be processed" := by
          unfold analyze_resumes
          rw [if_neg h1, if_neg h2]
          simp only [if_neg h3, hz, if_pos]
        rw [this] at hml
        exact absurd hml (by simp)
      · by_contra hno
        push_neg at hno
        exact hz (hcnt.mpr (fun r hr => by
          intro hok
          exact absurd hok (by simpa using hno r hr)))
    · rintro ⟨r, hr, hok⟩
      have hz : countOk (resumeResults ctx fs (preprocess ctx jd) rfs) ≠ 0 := by
        intro hz
        exact absurd hok (hcnt.mp hz r hr)
      refine ⟨successMessage (countOk (resumeResults ctx fs (preprocess ctx jd) rfs)),
        resumeResults ctx fs (preprocess ctx jd) rfs, ?_⟩
      unfold analyze_resumes
      rw [if_neg h1, if_neg h2]
      simp only [if_neg h3, if_neg hz]
  · intro hz
    refine ⟨?_, ?_, resumeResults_length ctx fs (preprocess ctx jd) rfs⟩
    · unfold analyze_resumes
      rw [if_neg h1, if_neg h2]
      simp only [if_neg h3, hz, if_pos]
    · intro r hr
      have := hcnt.mp hz r hr
      simpa using this

theorem C8_witness :
    analyze_resumes testCtx testFs "skill" [⟨some "bad.pdf", none⟩]
      = BatchResponse.error "No valid resumes could be processed" :=
  ((C8_batch_success_iff_some_ok testCtx testFs "skill" [⟨some "bad.pdf", none⟩]
    (by decide) (by decide) (by decide)).2 (by decide)).1

/-! ### C6 -/

/-- C6 counterexample: with a context agreeing with the real NLTK/WordNet
collaborators at these inputs (`"can"` a stop word, `lemmatize "cans" =
"can"`), the input token `"cans"` passes the stop-word and length filters,
yet `preprocess` of `"cans"` is exactly `"can"` — a stop-word token in the
output, refuting the claim that the output contains no stop-word tokens.
The filters run before lemmatization (line 88), never after. -/
theorem C6_counterexample :
    wnCtx.stopWords "cans" = false ∧ 1 < ("cans" : String).length ∧
    preprocess wnCtx "cans" = "can" ∧ wnCtx.stopWords "can" = true := by
  refine ⟨rfl, by decide, by decide, rfl⟩

/-- C6 amended: `preprocess` of a falsy input is the empty string for every
context (so tokenization is never consulted); the text handed to the
tokenizer is entirely lowercase; and on any other input the result is the
space-join of the lemmatized images of exactly those tokenizer tokens that
pass the stop-word and length tests — the tests apply to the tokens before
lemmatization, every kept pre-lemmatization token is a non-stop-word of
length > 1, and the kept tokens retain their original relative order (a
sublist of the token stream, never sorted).  The invariants need not
survive lemmatization: the lemmatizer may map a kept token to a stop word
or to a length-1 token. -/
theorem C6_amended_preprocess_filters (ctx : NlpCtx) (text : String) :
    preprocess ctx "" = "" ∧
    lowerStr (cleanText (strToLower text)) ∧
    (text ≠ "" →
      preprocess ctx text
        = joinSep " " (((ctx.tokenize (cleanText (strToLower text))).filter
            (fun t => !ctx.stopWords t && decide (1 < t.length))).map ctx.lemmatize) ∧
      List.Sublist
        ((ctx.tokenize (cleanText (strToLower text))).filter
            (fun t => !ctx.stopWords t && decide (1 < t.length)))
        (ctx.tokenize (cleanText (strToLower text))) ∧
      ∀ t ∈ (ctx.tokenize (cleanText (strToLower text))).filter
            (fun t => !ctx.stopWords t && decide (1 < t.length)),
        ctx.stopWords t = false ∧ 1 < t.length) := by
  refine ⟨by simp [preprocess],
    lowerStr_cleanText (strToLower text) (lowerStr_strToLower text),
    fun htext => ⟨?_, List.filter_sublist _, ?_⟩⟩
  · unfold preprocess
    rw [if_neg htext]
  · intro t ht
    have hft := List.mem_filter.mp ht
    have hcond := hft.2
    rw [Bool.and_eq_true] at hcond
    have hstop : ctx.stopWords t = false := by
      have hb := hcond.1
      simpa using hb
    exact ⟨hstop, of_decide_eq_true hcond.2⟩

theorem C6_amended_witness :
    preprocess testCtx "" = "" ∧
    preprocess testCtx "Skill Work" = "skill work" ∧
    testCtx.stopWords "skill work" = false ∧ 1 < ("skill work" : String).length := by
  obtain ⟨h1, hlow, h2⟩ := C6_amended_preprocess_filters testCtx "Skill Work"
  obtain ⟨heq, hsub, hmem⟩ := h2 (by decide)
  have hkept := hmem "skill work" (by decide)
  refine ⟨h1, ?_, hkept.1, hkept.2⟩
  rw [heq]
  decide

theorem C3_witness :
    "skill" ∈ extract_skills testCtx "skill" ∧ "skill" ∉ extract_skills testCtx "python" :=
  (C3_analyze_skills_disjoint_subset_capped testCtx "skill" "python").2.1 "skill" (by decide)
